import Mathlib

/-!
# Verification of the Social-media-agent evaluation core

Shallow embedding, in Lean 4, of the evaluation-orchestration core of the
`Social-media-agent` repository, together with theorems settling the
specification claims about it.  Embedded components:

* `src/tools/review_optimized.py` — `_calculate_overall_score` (decision
  aggregator) and the caching skeleton of `review_content_optimized`;
* `src/utils/model_router.py` — `get_fallback_chain` and
  `call_with_fallback`;
* `src/utils/cache_manager.py` — `CacheEntry`, `CacheManager.get/set`,
  `_evict_if_needed`, and the module-level `cache_key`;
* `src/utils/parallel_executor.py` — `Task`, `TaskResult`,
  `_execute_single_task`, `execute_tasks`.

Python conventions modelled explicitly: `dict.get(k, default)` becomes
`Option.getD`, Python `dict`s with a fixed field set become structures of
`Option`-typed fields, insertion-ordered dicts become association lists,
floats become `ℚ`, `time.time()` becomes an explicit `now : ℚ` argument,
and exceptions become `Except` with the exception's `str()` as the message.
-/

namespace SMAgent

/-! ## Decision aggregator (`src/tools/review_optimized.py`, `_calculate_overall_score`) -/

/-- The four decision values produced by `_calculate_overall_score`. -/
inductive Decision where
  | MUST_OPTIMIZE
  | PUBLISH
  | ASK_USER
  | RECOMMEND_OPTIMIZE
deriving DecidableEq, Repr

/-- `quality_result` dict: the fields read by the aggregator
(`.get('score', 0)` and `.get('suggestions', [])`). -/
structure QualityResult where
  score : Option ℚ
  suggestions : List String
deriving DecidableEq, Repr

/-- The `overall` sub-dict of a nested compliance result
(`compliance_result['data'].get('overall', {})`). -/
structure ComplianceOverall where
  passed : Option Bool
  score : Option ℚ
deriving DecidableEq, Repr

/-- The `data` sub-dict of a nested compliance result. -/
structure ComplianceData where
  overall : Option ComplianceOverall
deriving DecidableEq, Repr

/-- `compliance_result` dict: either nested (a `data` key is present)
or flat (`passed` / `score` read directly, with defaults `True` / `10`). -/
structure ComplianceResult where
  data : Option ComplianceData
  passed : Option Bool
  score : Option ℚ
deriving DecidableEq, Repr

/-- `engagement_result` dict: the fields read by the aggregator. -/
structure EngagementResult where
  score : Option ℚ
  suggestions : List String
deriving DecidableEq, Repr

/-- Python truthiness of an `engagement_result` dict (`if engagement_result:`):
an empty dict is falsy, a dict with at least one key present is truthy. -/
def EngagementResult.truthy (er : EngagementResult) : Bool :=
  er.score.isSome || !er.suggestions.isEmpty

/-- `compliance_passed` as computed by `_calculate_overall_score`:
`compliance_result['data'].get('overall', {}).get('passed', False)` when a
`data` key is present, else `compliance_result.get('passed', True)`. -/
def compliance_passed_of (c : ComplianceResult) : Bool :=
  match c.data with
  | some d => (d.overall.bind ComplianceOverall.passed).getD false
  | none => c.passed.getD true

/-- `compliance_score` as computed by `_calculate_overall_score`:
`compliance_result['data'].get('overall', {}).get('score', 0)` when a
`data` key is present, else `compliance_result.get('score', 10)`. -/
def compliance_score_of (c : ComplianceResult) : ℚ :=
  match c.data with
  | some d => (d.overall.bind ComplianceOverall.score).getD 0
  | none => c.score.getD 10

/-- `engagement_score = engagement_result.get('score', 0) if engagement_result
else None`: `None` both when the argument is `None` and when the dict is falsy. -/
def engagement_score_of : Option EngagementResult → Option ℚ
  | none => none
  | some er => if er.truthy then some (er.score.getD 0) else none

/-- `overall_score`: the two-way average `(quality + engagement) / 2` when an
engagement score is present, otherwise the quality score alone. -/
def overall_score_of (quality_score : ℚ) : Option ℚ → ℚ
  | some es => (quality_score + es) / 2
  | none => quality_score

/-- The decision block of `_calculate_overall_score`: compliance veto first,
then the `8.0` / `6.0` thresholds; returns `(decision, reason, action_text)`. -/
def decide_outcome (compliance_passed : Bool) (overall_score : ℚ) :
    Decision × String × String :=
  if compliance_passed = false then
    (Decision.MUST_OPTIMIZE, "存在合规性风险", "❌ 必须优化")
  else if overall_score ≥ 8 then
    (Decision.PUBLISH, "内容质量优秀", "✅ 可以发布")
  else if overall_score ≥ 6 then
    (Decision.ASK_USER, "内容质量良好，可以优化", "⚠️  建议询问用户")
  else
    (Decision.RECOMMEND_OPTIMIZE, "内容质量有待提升", "⚠️  建议优化")

/-- Python's `round(x, 1)` modelled as decimal rounding of a rational to one
decimal place (`round` is round-half-up here; the claims below only use that
this rounding is monotone and exact on the concrete inputs involved). -/
def roundTo1 (x : ℚ) : ℚ := (round (10 * x) : ℤ) / 10

/-- The dict returned by `_calculate_overall_score`. -/
structure OverallResult where
  score : ℚ
  quality_score : ℚ
  compliance_passed : Bool
  compliance_score : ℚ
  engagement_score : Option ℚ
  decision : Decision
  reason : String
  action_text : String
  suggestions : List String
deriving DecidableEq, Repr

/-- Embedding of `_calculate_overall_score(quality_result, compliance_result,
engagement_result=None)` from `src/tools/review_optimized.py`. -/
def _calculate_overall_score (quality_result : QualityResult)
    (compliance_result : ComplianceResult)
    (engagement_result : Option EngagementResult := none) : OverallResult :=
  let quality_score := quality_result.score.getD 0
  let compliance_passed := compliance_passed_of compliance_result
  let compliance_score := compliance_score_of compliance_result
  let engagement_score := engagement_score_of engagement_result
  let overall_score := overall_score_of quality_score engagement_score
  let outcome := decide_outcome compliance_passed overall_score
  let all_suggestions :=
    quality_result.suggestions ++
      (match engagement_result with
       | some er => if er.truthy then er.suggestions else []
       | none => [])
  { score := roundTo1 overall_score
    quality_score := quality_score
    compliance_passed := compliance_passed
    compliance_score := compliance_score
    engagement_score := engagement_score
    decision := outcome.1
    reason := outcome.2.1
    action_text := outcome.2.2
    suggestions := all_suggestions.take 5 }

/-- Decimal rounding to one place is monotone. -/
theorem roundTo1_mono {x y : ℚ} (h : x ≤ y) : roundTo1 x ≤ roundTo1 y := by
  unfold roundTo1
  have h1 : round (10 * x) ≤ round (10 * y) := by
    rw [round_eq, round_eq]
    exact Int.floor_mono (by linarith)
  have h2 : ((round (10 * x) : ℤ) : ℚ) ≤ ((round (10 * y) : ℤ) : ℚ) := by
    exact_mod_cast h1
  linarith

/-- **C2.** Whenever the compliance result reports `passed = false` (in either
the nested or the flat shape, i.e. the aggregator's computed
`compliance_passed` is `false`), the decision is `MUST_OPTIMIZE`, regardless
of the quality and engagement inputs. -/
theorem c2_compliance_veto (q : QualityResult) (c : ComplianceResult)
    (e : Option EngagementResult) (h : compliance_passed_of c = false) :
    (_calculate_overall_score q c e).decision = Decision.MUST_OPTIMIZE := by
  simp [_calculate_overall_score, decide_outcome, h]

/-- Witness for `c2_compliance_veto`: a failing compliance gate vetoes even
maximal quality and engagement scores. -/
theorem c2_compliance_veto_witness :
    (_calculate_overall_score ⟨some 9, []⟩ ⟨none, some false, none⟩
      (some ⟨some 9, []⟩)).decision = Decision.MUST_OPTIMIZE :=
  c2_compliance_veto _ _ _ (by decide)

/-- **C3, counterexample.** The claim says an absent dimension is scored `0`
with full weight (fail-closed).  But with the compliance dimension entirely
absent (an empty compliance dict) and maximal quality, the aggregator scores
compliance `10`, treats it as passed, and decides `PUBLISH` — maximally
permissive, i.e. fail-open for the gate dimension. -/
theorem c3_counterexample :
    (_calculate_overall_score ⟨some 9, []⟩ ⟨none, none, none⟩ none).compliance_passed = true ∧
    (_calculate_overall_score ⟨some 9, []⟩ ⟨none, none, none⟩ none).compliance_score = 10 ∧
    (_calculate_overall_score ⟨some 9, []⟩ ⟨none, none, none⟩ none).decision = Decision.PUBLISH :=
  ⟨by decide, by decide, by decide⟩

/-- **C3, amended.** An absent quality dimension is scored `0`; but an absent
compliance dimension is fail-open — it defaults to `passed = true` with score
`10` — and an absent engagement dimension is excluded from the average
(the overall score becomes the quality score alone) rather than scored `0`. -/
theorem c3_amended :
    (∀ (sugg : List String) (c : ComplianceResult) (e : Option EngagementResult),
       (_calculate_overall_score ⟨none, sugg⟩ c e).quality_score = 0) ∧
    (∀ (q : QualityResult) (e : Option EngagementResult),
       (_calculate_overall_score q ⟨none, none, none⟩ e).compliance_passed = true ∧
       (_calculate_overall_score q ⟨none, none, none⟩ e).compliance_score = 10) ∧
    (∀ (q : QualityResult) (c : ComplianceResult),
       (_calculate_overall_score q c none).score = roundTo1 (q.score.getD 0)) := by
  refine ⟨?_, ?_, ?_⟩
  · intro sugg c e
    simp [_calculate_overall_score]
  · intro q e
    constructor <;>
      simp [_calculate_overall_score, compliance_passed_of, compliance_score_of]
  · intro q c
    simp [_calculate_overall_score, engagement_score_of, overall_score_of]

/-- **C4, counterexample.** Two aggregator inputs identical except that one
omits the engagement dimension: with engagement (score `1`) the overall score
is `5`, without it the overall score is `9` — omitting a non-gate dimension
*raised* `overall_score`, contradicting the claimed `≤`. -/
theorem c4_counterexample :
    (_calculate_overall_score ⟨some 9, []⟩ ⟨none, some true, some 10⟩
      (some ⟨some 1, []⟩)).score = 5 ∧
    (_calculate_overall_score ⟨some 9, []⟩ ⟨none, some true, some 10⟩ none).score = 9 := by
  constructor
  · simp [_calculate_overall_score, overall_score_of, engagement_score_of,
      EngagementResult.truthy, roundTo1]
    norm_num [round_eq]
  · simp [_calculate_overall_score, overall_score_of, engagement_score_of, roundTo1]
    norm_num [round_eq]

/-- **C4, amended.** Omitting the quality dimension never raises
`overall_score` (for non-negative scores).  Omitting the engagement dimension
drops it from the two-way average: doing so never lowers the overall score
when the engagement score is at most the quality score — so it can raise it —
and the originally claimed inequality holds only when the engagement score is
at least the quality score. -/
theorem c4_amended :
    (∀ (qs : ℚ) (sugg : List String) (c : ComplianceResult) (e : Option EngagementResult),
       0 ≤ qs →
       (_calculate_overall_score ⟨none, sugg⟩ c e).score ≤
         (_calculate_overall_score ⟨some qs, sugg⟩ c e).score) ∧
    (∀ (q : QualityResult) (c : ComplianceResult) (es : ℚ) (sugg : List String),
       es ≤ q.score.getD 0 →
       (_calculate_overall_score q c (some ⟨some es, sugg⟩)).score ≤
         (_calculate_overall_score q c none).score) ∧
    (∀ (q : QualityResult) (c : ComplianceResult) (es : ℚ) (sugg : List String),
       q.score.getD 0 ≤ es →
       (_calculate_overall_score q c none).score ≤
         (_calculate_overall_score q c (some ⟨some es, sugg⟩)).score) := by
  refine ⟨?_, ?_, ?_⟩
  · intro qs sugg c e h
    have hmono : overall_score_of 0 (engagement_score_of e) ≤
        overall_score_of qs (engagement_score_of e) := by
      cases hes : engagement_score_of e with
      | none => simpa [overall_score_of] using h
      | some es =>
        simp only [overall_score_of]
        linarith
    simpa [_calculate_overall_score] using roundTo1_mono hmono
  · intro q c es sugg h
    have hmono : overall_score_of (q.score.getD 0) (some es) ≤
        overall_score_of (q.score.getD 0) none := by
      simp only [overall_score_of]
      linarith
    simpa [_calculate_overall_score, engagement_score_of,
      EngagementResult.truthy] using roundTo1_mono hmono
  · intro q c es sugg h
    have hmono : overall_score_of (q.score.getD 0) none ≤
        overall_score_of (q.score.getD 0) (some es) := by
      simp only [overall_score_of]
      linarith
    simpa [_calculate_overall_score, engagement_score_of,
      EngagementResult.truthy] using roundTo1_mono hmono

/-- Witness for `c4_amended` at concrete scores. -/
theorem c4_amended_witness :
    (_calculate_overall_score ⟨none, []⟩ ⟨none, some true, some 10⟩ none).score ≤
      (_calculate_overall_score ⟨some 7, []⟩ ⟨none, some true, some 10⟩ none).score ∧
    (_calculate_overall_score ⟨some 7, []⟩ ⟨none, some true, some 10⟩
        (some ⟨some 3, []⟩)).score ≤
      (_calculate_overall_score ⟨some 7, []⟩ ⟨none, some true, some 10⟩ none).score ∧
    (_calculate_overall_score ⟨some 7, []⟩ ⟨none, some true, some 10⟩ none).score ≤
      (_calculate_overall_score ⟨some 7, []⟩ ⟨none, some true, some 10⟩
        (some ⟨some 9, []⟩)).score :=
  ⟨c4_amended.1 7 [] ⟨none, some true, some 10⟩ none (by norm_num),
   c4_amended.2.1 ⟨some 7, []⟩ ⟨none, some true, some 10⟩ 3 [] (by norm_num),
   c4_amended.2.2 ⟨some 7, []⟩ ⟨none, some true, some 10⟩ 9 [] (by norm_num)⟩

/-! ## Model router (`src/utils/model_router.py`) -/

/-- `True` iff an `Except` result is an exception (a raised Python error). -/
def excIsErr : Except String α → Bool
  | .error _ => true
  | .ok _ => false

/-- The `while depth < max_depth` loop body of `get_fallback_chain`: extend
`chain` from `current` until the fallback map yields `None`, a duplicate, or
the depth budget runs out. -/
def getFallbackChainAux (fb : String → Option String) :
    Nat → List String → String → List String
  | 0, chain, _ => chain
  | depth + 1, chain, current =>
    match fb current with
    | none => chain
    | some f =>
      if f ∈ chain then chain
      else getFallbackChainAux fb depth (chain ++ [f]) f

/-- Embedding of `ModelRouter.get_fallback_chain(primary_model, max_depth=5)`;
`fb` is the configured `FALLBACK_MODELS` mapping (`get_fallback_model`). -/
def get_fallback_chain (fb : String → Option String) (primary_model : String)
    (max_depth : Nat := 5) : List String :=
  getFallbackChainAux fb max_depth [primary_model] primary_model

/-- The configured `ModelConfig.FALLBACK_MODELS` map from `src/config.py`. -/
def FALLBACK_MODELS : String → Option String := fun m =>
  if m = "gpt-4o" then some "gpt-4o-mini"
  else if m = "claude-3-5-sonnet-20241022" then some "gpt-4o"
  else if m = "claude-3.5-sonnet" then some "gpt-4o"
  else if m = "qwen2.5-vl" then some "gpt-4o-vision"
  else none

/-- The `for attempt in range(max_retries)` retry loop of `call_with_fallback`
for one model.  `call_function` is the injected invoker, indexed by a global
attempt counter so that stateful invokers are expressible; `k` is the next
global attempt index and `last` the `last_exception` accumulator.  Returns
`(success value if any, next global index, last exception, attempted models)`.
`time.sleep(retry_delay)` has no observable effect in this embedding. -/
def retry_loop (call_function : Nat → String → Except String α) (model : String) :
    Nat → Nat → Option String → Option α × Nat × Option String × List String
  | 0, k, last => (none, k, last, [])
  | n + 1, k, last =>
    match call_function k model with
    | .ok a => (some a, k + 1, last, [model])
    | .error e =>
      let r := retry_loop call_function model n (k + 1) (some e)
      (r.1, r.2.1, r.2.2.1, model :: r.2.2.2)

/-- The `for model in fallback_chain` loop of `call_with_fallback`:
try each candidate with `retry_loop`; on success return `(result, model)`.
Returns `(outcome, last exception, attempted models in order)`. -/
def chain_loop (call_function : Nat → String → Except String α) (max_retries : Nat) :
    List String → Nat → Option String → Option (α × String) × Option String × List String
  | [], _, last => (none, last, [])
  | m :: rest, k, last =>
    match retry_loop call_function m max_retries k last with
    | (some a, _, last2, tr) => (some (a, m), last2, tr)
    | (none, k2, last2, tr) =>
      let r := chain_loop call_function max_retries rest k2 last2
      (r.1, r.2.1, tr ++ r.2.2)

/-- Python's `str(last_exception)` where `last_exception` starts as `None`. -/
def str_of_exc : Option String → String
  | none => "None"
  | some s => s

/-- Result of `call_with_fallback`, together with the ordered list of
(model of each) invocation attempts actually made. -/
structure FallbackResult (α : Type) where
  result : Except String (α × String)
  attempts : List String
deriving Repr

/-- Embedding of `ModelRouter.call_with_fallback(model_name, call_function,
max_retries=3, ...)`: walk the fallback chain, retrying each model
`max_retries` times; on first success return `(result, model)`; once the
chain is exhausted raise a fresh
`Exception("所有模型调用失败。最后错误: " + str(last_exception))`. -/
def call_with_fallback (fb : String → Option String) (model_name : String)
    (call_function : Nat → String → Except String α)
    (max_retries : Nat := 3) : FallbackResult α :=
  let fallback_chain := get_fallback_chain fb model_name
  match chain_loop call_function max_retries fallback_chain 0 none with
  | (some res, _, tr) => ⟨.ok res, tr⟩
  | (none, last, tr) =>
    ⟨.error ("所有模型调用失败。最后错误: " ++ str_of_exc last), tr⟩

/-- If every attempt at `m` raises, the retry loop makes exactly `n` attempts
at `m`, advances the global attempt counter by `n`, and reports no success. -/
lemma retry_loop_all_fail {α : Type} (f : Nat → String → Except String α)
    (m : String) (hf : ∀ k, excIsErr (f k m) = true) :
    ∀ (n k : Nat) (last : Option String), ∃ last',
      retry_loop f m n k last = (none, k + n, last', List.replicate n m) := by
  intro n
  induction n with
  | zero => intro k last; exact ⟨last, by simp [retry_loop]⟩
  | succ n ih =>
    intro k last
    cases hfk : f k m with
    | ok a => exact absurd (hf k) (by simp [excIsErr, hfk])
    | error e =>
      obtain ⟨last', hl⟩ := ih (k + 1) (some e)
      refine ⟨last', ?_⟩
      have hkn : k + (n + 1) = (k + 1) + n := by omega
      simp [retry_loop, hfk, hl, List.replicate_succ, hkn]

/-- If the very first attempt at `m` succeeds and at least one attempt is
allowed, the retry loop returns that success after a single attempt. -/
lemma retry_loop_first_ok {α : Type} (f : Nat → String → Except String α)
    (m : String) (r : α) (n k : Nat) (last : Option String)
    (h : f k m = .ok r) (hn : 0 < n) :
    retry_loop f m n k last = (some r, k + 1, last, [m]) := by
  cases n with
  | zero => omega
  | succ n => simp [retry_loop, h]

/-- If every attempt at every model raises `em model`, the retry loop fails
after `n` attempts and the recorded last exception is `em m` (for `n > 0`). -/
lemma retry_loop_const_err {α : Type} (f : Nat → String → Except String α)
    (em : String → String) (m : String) (hf : ∀ k, f k m = .error (em m)) :
    ∀ (n k : Nat) (last : Option String),
      retry_loop f m n k last =
        (none, k + n, if n = 0 then last else some (em m), List.replicate n m) := by
  intro n
  induction n with
  | zero => intro k last; simp [retry_loop]
  | succ n ih =>
    intro k last
    simp only [retry_loop, hf k]
    rw [ih (k + 1) (some (em m))]
    simp only [Prod.mk.injEq, ite_self, List.replicate_succ, and_true, true_and]
    exact ⟨by omega, by simp⟩

/-- A retry loop that reports no success attempted its model exactly `n`
times. -/
lemma retry_loop_none_trace {α : Type} (f : Nat → String → Except String α)
    (m : String) :
    ∀ (n k : Nat) (last : Option String),
      (retry_loop f m n k last).1 = none →
      (retry_loop f m n k last).2.2.2 = List.replicate n m := by
  intro n
  induction n with
  | zero => intro k last _; simp [retry_loop]
  | succ n ih =>
    intro k last h
    cases hfk : f k m with
    | ok a => simp [retry_loop, hfk] at h
    | error e =>
      have := ih (k + 1) (some e)
      simp [retry_loop, hfk] at h ⊢
      simp [List.replicate_succ, this h]

/-- Main success lemma: if every model in `pre` always raises and `mK`
succeeds at once, the chain loop attempts every model of `pre` exactly
`max_retries` times, in order, then succeeds on `mK`'s first attempt. -/
lemma chain_loop_prefix_fail {α : Type} (f : Nat → String → Except String α)
    (R : Nat) (hR : 0 < R) (mK : String) (r : α) (hsucc : ∀ k, f k mK = .ok r) :
    ∀ (pre : List String) (rest : List String) (k : Nat) (last : Option String),
      (∀ m ∈ pre, ∀ j, excIsErr (f j m) = true) →
      (chain_loop f R (pre ++ mK :: rest) k last).1 = some (r, mK) ∧
      (chain_loop f R (pre ++ mK :: rest) k last).2.2 =
        pre.flatMap (fun m => List.replicate R m) ++ [mK] := by
  intro pre
  induction pre with
  | nil =>
    intro rest k last _
    have h := retry_loop_first_ok f mK r R k last (hsucc k) hR
    simp [chain_loop, h]
  | cons m pre ih =>
    intro rest k last hfail
    have hm : ∀ j, excIsErr (f j m) = true := fun j => hfail m (by simp) j
    obtain ⟨last', hl⟩ := retry_loop_all_fail f m hm R k last
    have hrec := ih rest (k + R) last' (fun m' hm' j => hfail m' (by simp [hm']) j)
    simp [chain_loop, hl, hrec.1, hrec.2]

/-- Exhaustion lemma: if every attempt at every model raises `em model`, the
chain loop attempts every model exactly `R > 0` times and ends with the last
model's exception as `last_exception`. -/
lemma chain_loop_all_fail {α : Type} (f : Nat → String → Except String α)
    (em : String → String) (R : Nat) (hR : 0 < R)
    (hf : ∀ k m', f k m' = .error (em m')) :
    ∀ (ms : List String) (mlast : String) (k : Nat) (last : Option String),
      chain_loop f R (ms ++ [mlast]) k last =
        (none, some (em mlast),
          (ms ++ [mlast]).flatMap (fun m => List.replicate R m)) := by
  intro ms
  induction ms with
  | nil =>
    intro mlast k last
    have h := retry_loop_const_err f em mlast (fun k => hf k mlast) R k last
    have hR' : ¬ R = 0 := by omega
    simp [chain_loop, h, hR']
  | cons m ms ih =>
    intro mlast k last
    have h := retry_loop_const_err f em m (fun k => hf k m) R k last
    have hR' : ¬ R = 0 := by omega
    simp [chain_loop, h, hR', ih mlast (k + R) (some (em m))]

/-- A chain loop that reports no success attempted every model of the chain
exactly `R` times, in chain order. -/
lemma chain_loop_none_trace {α : Type} (f : Nat → String → Except String α)
    (R : Nat) :
    ∀ (ms : List String) (k : Nat) (last : Option String),
      (chain_loop f R ms k last).1 = none →
      (chain_loop f R ms k last).2.2 = ms.flatMap (fun m => List.replicate R m) := by
  intro ms
  induction ms with
  | nil => intro k last _; simp [chain_loop]
  | cons m ms ih =>
    intro k last h
    rcases hrt : retry_loop f m R k last with ⟨o, k2, last2, tr⟩
    cases o with
    | some a => simp [chain_loop, hrt] at h
    | none =>
      have htr : tr = List.replicate R m := by
        have := retry_loop_none_trace f m R k last
        rw [hrt] at this
        exact this rfl
      have hrec1 : (chain_loop f R ms k2 last2).1 = none := by
        simp [chain_loop, hrt] at h
        exact h
      simp [chain_loop, hrt, htr, ih k2 last2 hrec1]

/-- The length of a flat map of constant-length replications. -/
lemma flatMap_replicate_length (l : List String) (R : Nat) :
    (l.flatMap (fun m => List.replicate R m)).length = l.length * R := by
  induction l with
  | nil => simp
  | cons m l ih => simp [ih]; ring

/-- **C1.** If the fallback chain of `model_name` has the invoker raising for
its first `K` models (every attempt) and succeeding on the `(K+1)`-th model
`mK`, then `call_with_fallback` (with `max_retries > 0`) returns
`(result, mK)` as `(result, model_used)`, having attempted each of the first
`K` models exactly `max_retries` times in chain order before the single
successful attempt at `mK`; total attempts are at most
`chain length × max_retries`. -/
theorem c1_fallback_first_success {α : Type} (fb : String → Option String)
    (model_name : String) (f : Nat → String → Except String α)
    (max_retries K : Nat) (mK : String) (r : α)
    (hR : 0 < max_retries)
    (hK : (get_fallback_chain fb model_name)[K]? = some mK)
    (hfail : ∀ m ∈ (get_fallback_chain fb model_name).take K, ∀ j,
      excIsErr (f j m) = true)
    (hsucc : ∀ k, f k mK = .ok r) :
    (call_with_fallback fb model_name f max_retries).result = .ok (r, mK) ∧
    (call_with_fallback fb model_name f max_retries).attempts =
      ((get_fallback_chain fb model_name).take K).flatMap
        (fun m => List.replicate max_retries m) ++ [mK] ∧
    (call_with_fallback fb model_name f max_retries).attempts.length ≤
      (get_fallback_chain fb model_name).length * max_retries := by
  have hlt : K < (get_fallback_chain fb model_name).length := by
    by_contra hc
    simp [List.getElem?_eq_none (by omega : (get_fallback_chain fb model_name).length ≤ K)] at hK
  have hdec : get_fallback_chain fb model_name =
      (get_fallback_chain fb model_name).take K ++
        mK :: (get_fallback_chain fb model_name).drop (K + 1) := by
    conv_lhs => rw [← List.take_append_drop K (get_fallback_chain fb model_name)]
    rw [List.drop_eq_getElem_cons hlt]
    have : (get_fallback_chain fb model_name)[K] = mK := by
      have := List.getElem?_eq_getElem hlt
      rw [hK] at this
      exact (Option.some.injEq _ _).mp this.symm
    rw [this]
  have hmain := chain_loop_prefix_fail f max_retries hR mK r hsucc
    ((get_fallback_chain fb model_name).take K)
    ((get_fallback_chain fb model_name).drop (K + 1)) 0 none hfail
  rcases hcl : chain_loop f max_retries (get_fallback_chain fb model_name) 0 none
    with ⟨o, l2, tr⟩
  rw [← hdec, hcl] at hmain
  obtain ⟨ho, htr⟩ := hmain
  simp only at ho htr
  subst ho htr
  have hlen : ((get_fallback_chain fb model_name).take K).length = K :=
    List.length_take_of_le (by omega)
  refine ⟨by simp [call_with_fallback, hcl], by simp [call_with_fallback, hcl], ?_⟩
  simp only [call_with_fallback, hcl]
  have := flatMap_replicate_length ((get_fallback_chain fb model_name).take K) max_retries
  simp only [List.length_append, this, hlen, List.length_cons, List.length_nil]
  calc K * max_retries + (0 + 1) = K * max_retries + 1 := by omega
    _ ≤ (K + 1) * max_retries := by nlinarith
    _ ≤ (get_fallback_chain fb model_name).length * max_retries :=
        Nat.mul_le_mul_right _ (by omega)

/-- Witness for `c1_fallback_first_success`: `gpt-4o` always fails, its
fallback `gpt-4o-mini` succeeds with `42`; three attempts at the primary
precede the successful one. -/
theorem c1_fallback_first_success_witness :
    (call_with_fallback FALLBACK_MODELS "gpt-4o"
      (fun _ m => if m = "gpt-4o" then .error "down" else .ok 42) 3).result =
        .ok (42, "gpt-4o-mini") ∧
    (call_with_fallback FALLBACK_MODELS "gpt-4o"
      (fun _ m => if m = "gpt-4o" then .error "down" else .ok 42) 3).attempts =
      ((get_fallback_chain FALLBACK_MODELS "gpt-4o").take 1).flatMap
        (fun m => List.replicate 3 m) ++ ["gpt-4o-mini"] ∧
    (call_with_fallback FALLBACK_MODELS "gpt-4o"
      (fun _ m => if m = "gpt-4o" then .error "down" else .ok 42) 3).attempts.length ≤
      (get_fallback_chain FALLBACK_MODELS "gpt-4o").length * 3 :=
  c1_fallback_first_success FALLBACK_MODELS "gpt-4o"
    (fun _ m => if m = "gpt-4o" then .error "down" else .ok 42) 3 1 "gpt-4o-mini" 42
    (by omega) (by rfl)
    (by
      intro m hm j
      have : m = "gpt-4o" := by
        simpa [get_fallback_chain, getFallbackChainAux, FALLBACK_MODELS] using hm
      subst this
      rfl)
    (fun k => rfl)

/-- **C5, counterexample.** With an invoker that always raises `"boom"`, the
propagated failure is a *new* exception whose message is
`"所有模型调用失败。最后错误: boom"` — not a re-raise of the last error
`"boom"` itself, contradicting the claim's "re-raises the last error". -/
theorem c5_counterexample :
    (call_with_fallback FALLBACK_MODELS "gpt-4o"
      (fun _ _ => (.error "boom" : Except String Nat)) 1).result =
      .error "所有模型调用失败。最后错误: boom" ∧
    "所有模型调用失败。最后错误: boom" ≠ "boom" :=
  ⟨by rfl, by decide⟩

/-- **C5, amended.** For an invoker that raises on every call,
`call_with_fallback` exhausts the whole fallback chain (each model attempted
exactly `max_retries` times, in order) and then raises a *new* exception
whose message is `"所有模型调用失败。最后错误: "` followed by the message of
the last error raised; moreover, for any invoker, an error propagates to the
caller only when the whole chain was exhausted. -/
theorem c5_amended {α : Type} (fb : String → Option String)
    (model_name : String) (f : Nat → String → Except String α)
    (em : String → String) (R : Nat) (init : List String) (mlast : String)
    (hchain : get_fallback_chain fb model_name = init ++ [mlast])
    (hR : 0 < R)
    (herr : ∀ k m', f k m' = .error (em m')) :
    (call_with_fallback fb model_name f R).result =
      .error ("所有模型调用失败。最后错误: " ++ em mlast) ∧
    (call_with_fallback fb model_name f R).attempts =
      (init ++ [mlast]).flatMap (fun m => List.replicate R m) ∧
    (∀ (g : Nat → String → Except String α) (e : String),
       (call_with_fallback fb model_name g R).result = .error e →
       (call_with_fallback fb model_name g R).attempts =
         (get_fallback_chain fb model_name).flatMap
           (fun m => List.replicate R m)) := by
  have hcl := chain_loop_all_fail f em R hR herr init mlast 0 none
  rw [← hchain] at hcl
  refine ⟨?_, ?_, ?_⟩
  · simp [call_with_fallback, hcl, str_of_exc]
  · simp only [call_with_fallback, hcl]
    rw [hchain]
  · intro g e hres
    rcases hcg : chain_loop g R (get_fallback_chain fb model_name) 0 none
      with ⟨o, l2, tr⟩
    cases o with
    | some a => simp [call_with_fallback, hcg] at hres
    | none =>
      have h1 : (chain_loop g R (get_fallback_chain fb model_name) 0 none).1 = none := by
        rw [hcg]
      have h2 := chain_loop_none_trace g R (get_fallback_chain fb model_name) 0 none h1
      rw [hcg] at h2
      simp at h2
      simp [call_with_fallback, hcg, h2]

/-- Witness for `c5_amended` on the configured chain of `gpt-4o` with a
constantly failing invoker. -/
theorem c5_amended_witness :
    (call_with_fallback FALLBACK_MODELS "gpt-4o"
      (fun _ _ => (.error "boom" : Except String Nat)) 2).result =
      .error ("所有模型调用失败。最后错误: " ++ "boom") ∧
    (call_with_fallback FALLBACK_MODELS "gpt-4o"
      (fun _ _ => (.error "boom" : Except String Nat)) 2).attempts =
      (["gpt-4o"] ++ ["gpt-4o-mini"]).flatMap (fun m => List.replicate 2 m) ∧
    (∀ (g : Nat → String → Except String Nat) (e : String),
       (call_with_fallback FALLBACK_MODELS "gpt-4o" g 2).result = .error e →
       (call_with_fallback FALLBACK_MODELS "gpt-4o" g 2).attempts =
         (get_fallback_chain FALLBACK_MODELS "gpt-4o").flatMap
           (fun m => List.replicate 2 m)) :=
  c5_amended FALLBACK_MODELS "gpt-4o"
    (fun _ _ => (.error "boom" : Except String Nat)) (fun _ => "boom") 2
    ["gpt-4o"] "gpt-4o-mini" (by rfl) (by omega) (fun k m' => rfl)

/-! ## Cache manager (`src/utils/cache_manager.py`)

Python's insertion-ordered `dict` is modelled as an association list:
lookup finds the first binding, assignment overwrites an existing binding in
place (keeping its position) or appends a new one, deletion removes the
binding.  `time.time()` is an explicit `now : ℚ` argument.  Durable-tier I/O
is modelled as always succeeding (the code catches and logs I/O errors; the
claims under verification do not exercise that failure mode). -/

/-- Python `dict` lookup (`d.get(k)` / `k in d`). -/
def dictGet {β : Type} : List (String × β) → String → Option β
  | [], _ => none
  | (k', v) :: rest, k => if k' = k then some v else dictGet rest k

/-- Python `dict` assignment `d[k] = v`: overwrite in place or append. -/
def dictInsert {β : Type} : List (String × β) → String → β → List (String × β)
  | [], k, v => [(k, v)]
  | (k', v') :: rest, k, v =>
    if k' = k then (k, v) :: rest else (k', v') :: dictInsert rest k v

/-- Python `del d[k]` (no-op when the key is absent, matching the guarded
deletes in the source). -/
def dictErase {β : Type} : List (String × β) → String → List (String × β)
  | [], _ => []
  | (k', v') :: rest, k =>
    if k' = k then rest else (k', v') :: dictErase rest k

/-- `CacheEntry` dataclass. -/
structure CacheEntry (V : Type) where
  key : String
  value : V
  created_at : ℚ
  expires_at : Option ℚ
  hit_count : Nat
deriving Repr, DecidableEq

/-- `CacheEntry.is_expired(self)`: `False` when `expires_at is None`, else
`time.time() > expires_at`. -/
def CacheEntry.is_expired {V : Type} (e : CacheEntry V) (now : ℚ) : Bool :=
  match e.expires_at with
  | none => false
  | some t => decide (now > t)

/-- The mutable state of a `CacheManager`: both tiers, the configuration
fields, and the statistics counters. -/
structure CacheState (V : Type) where
  memory : List (String × CacheEntry V)
  disk : List (String × CacheEntry V)
  default_ttl : ℤ
  max_memory_items : Nat
  hits : Nat
  misses : Nat
  sets : Nat
deriving Repr, DecidableEq

/-- A freshly constructed `CacheManager(default_ttl, max_memory_items)`
with empty tiers. -/
def initCache (V : Type) (default_ttl : ℤ) (max_memory_items : Nat) :
    CacheState V :=
  ⟨[], [], default_ttl, max_memory_items, 0, 0, 0⟩

/-- `CacheManager._evict_if_needed`: if the memory tier exceeds
`max_memory_items`, stable-sort its items by `hit_count` ascending and delete
the first `len - max` keys. -/
def _evict_if_needed {V : Type} (s : CacheState V) : CacheState V :=
  if s.memory.length ≤ s.max_memory_items then s
  else
    let items := s.memory.mergeSort
      (fun a b => decide (a.2.hit_count ≤ b.2.hit_count))
    let to_remove := s.memory.length - s.max_memory_items
    let removed_keys := (items.take to_remove).map Prod.fst
    { s with memory := s.memory.filter (fun kv => !(removed_keys.contains kv.1)) }

/-- Bump `entry.hit_count` of the entry stored under `key` (the
`entry.hit_count += 1` object mutation, visible through the memory tier). -/
def bumpHit {V : Type} (l : List (String × CacheEntry V)) (key : String) :
    List (String × CacheEntry V) :=
  l.map (fun kv =>
    if kv.1 = key then (kv.1, { kv.2 with hit_count := kv.2.hit_count + 1 })
    else kv)

/-- `CacheManager.get(key)`: memory tier first (expired entries are purged
from both tiers), then the durable tier (promoting an unexpired entry into
memory, subject to eviction); returns the entry's value or `None`. -/
def CacheManager.get {V : Type} (s : CacheState V) (key : String) (now : ℚ) :
    Option V × CacheState V :=
  match dictGet s.memory key with
  | some entry =>
    if entry.is_expired now then
      (none, { s with memory := dictErase s.memory key,
                      disk := dictErase s.disk key,
                      misses := s.misses + 1 })
    else
      (some entry.value,
       { s with memory := bumpHit s.memory key, hits := s.hits + 1 })
  | none =>
    match dictGet s.disk key with
    | some entry =>
      if entry.is_expired now then
        (none, { s with disk := dictErase s.disk key, misses := s.misses + 1 })
      else
        let s1 := _evict_if_needed { s with memory := dictInsert s.memory key entry }
        (some entry.value,
         { s1 with memory := bumpHit s1.memory key, hits := s1.hits + 1 })
    | none => (none, { s with misses := s.misses + 1 })

/-- The `CacheEntry` written by `CacheManager.set(key, value, ttl=None)`:
`ttl` of `None` means `default_ttl`;
`expires_at = now + ttl if ttl > 0 else None`; `hit_count = 0`. -/
def setEntry {V : Type} (s : CacheState V) (key : String) (value : V)
    (ttl : Option ℤ) (now : ℚ) : CacheEntry V :=
  let ttl := ttl.getD s.default_ttl
  let expires_at : Option ℚ := if ttl > 0 then some (now + (ttl : ℚ)) else none
  ⟨key, value, now, expires_at, 0⟩

/-- `CacheManager.set(key, value, ttl=None)`: build the entry, write it to
memory (with eviction), then persist it to the durable tier. -/
def CacheManager.set {V : Type} (s : CacheState V) (key : String) (value : V)
    (ttl : Option ℤ) (now : ℚ) : CacheState V :=
  let entry := setEntry s key value ttl now
  let s1 := _evict_if_needed { s with memory := dictInsert s.memory key entry }
  { s1 with disk := dictInsert s1.disk key entry, sets := s1.sets + 1 }

/- Core marks rational arithmetic `@[irreducible]`; re-enable unfolding so
that concrete cache computations (timestamps, TTLs) evaluate by `decide`. -/
attribute [local semireducible] Rat.add Rat.mul Rat.sub Rat.inv

/-- Lookup after assignment of the same key. -/
lemma dictGet_dictInsert_self {β : Type} (l : List (String × β)) (k : String) (v : β) :
    dictGet (dictInsert l k v) k = some v := by
  induction l with
  | nil => simp [dictInsert, dictGet]
  | cons kv rest ih =>
    by_cases h : kv.1 = k
    · simp [dictInsert, dictGet, h]
    · simp [dictInsert, dictGet, h, ih]

/-- Lookup through a key-based filter: either the key is filtered out
(lookup yields `none`) or the lookup is unchanged. -/
lemma dictGet_filter_contains {β : Type} (ks : List String)
    (l : List (String × β)) (k : String) :
    dictGet (l.filter (fun kv => !(ks.contains kv.1))) k =
      if k ∈ ks then none else dictGet l k := by
  induction l with
  | nil => simp [dictGet]
  | cons kv rest ih =>
    simp only [List.elem_eq_mem] at ih
    by_cases hk : kv.1 = k
    · subst hk
      by_cases hc : kv.1 ∈ ks
      · simp [List.filter_cons, hc, dictGet, ih]
      · simp [List.filter_cons, hc, dictGet, ih]
    · by_cases hc2 : kv.1 ∈ ks
      · simp [List.filter_cons, hc2, dictGet, hk, ih]
      · simp [List.filter_cons, hc2, dictGet, hk, ih]

/-- Eviction never touches the durable tier. -/
@[simp] lemma evict_disk {V : Type} (s : CacheState V) :
    (_evict_if_needed s).disk = s.disk := by
  unfold _evict_if_needed
  split <;> rfl

/-- Eviction leaves the configuration fields unchanged. -/
@[simp] lemma evict_config {V : Type} (s : CacheState V) :
    (_evict_if_needed s).default_ttl = s.default_ttl ∧
    (_evict_if_needed s).max_memory_items = s.max_memory_items := by
  unfold _evict_if_needed
  split <;> exact ⟨rfl, rfl⟩

/-- After eviction, looking a key up in memory either yields what it yielded
before the eviction or yields nothing. -/
lemma dictGet_evict_memory {V : Type} (s : CacheState V) (k : String) :
    dictGet (_evict_if_needed s).memory k = dictGet s.memory k ∨
      dictGet (_evict_if_needed s).memory k = none := by
  unfold _evict_if_needed
  split
  · exact Or.inl rfl
  · simp only [dictGet_filter_contains]
    split
    · exact Or.inr rfl
    · exact Or.inl rfl

/-- A `get` of `key` straight after a `set` of `key` returns the stored value
whenever the written entry is unexpired at lookup time, regardless of what
eviction did in between: the durable tier still holds the entry. -/
lemma get_after_set {V : Type} (s : CacheState V) (k : String) (v : V)
    (ttl : Option ℤ) (now t1 : ℚ)
    (hexp : (setEntry s k v ttl now).is_expired t1 = false) :
    (CacheManager.get (CacheManager.set s k v ttl now) k t1).1 = some v := by
  rcases dictGet_evict_memory
      { s with memory := dictInsert s.memory k (setEntry s k v ttl now) } k with h | h
  · rw [show ({ s with memory := dictInsert s.memory k (setEntry s k v ttl now) } :
        CacheState V).memory = dictInsert s.memory k (setEntry s k v ttl now) from rfl,
      dictGet_dictInsert_self] at h
    simp [CacheManager.get, CacheManager.set, h, hexp]
    simp [setEntry]
  · simp [CacheManager.get, CacheManager.set, h, dictGet_dictInsert_self, hexp]
    simp [setEntry]

/-- A `get` of `key` straight after a `set` of `key` misses (and returns
`None`) whenever the written entry is already expired at lookup time. -/
lemma get_after_set_expired {V : Type} (s : CacheState V) (k : String) (v : V)
    (ttl : Option ℤ) (now t1 : ℚ)
    (hexp : (setEntry s k v ttl now).is_expired t1 = true) :
    (CacheManager.get (CacheManager.set s k v ttl now) k t1).1 = none := by
  rcases dictGet_evict_memory
      { s with memory := dictInsert s.memory k (setEntry s k v ttl now) } k with h | h
  · rw [show ({ s with memory := dictInsert s.memory k (setEntry s k v ttl now) } :
        CacheState V).memory = dictInsert s.memory k (setEntry s k v ttl now) from rfl,
      dictGet_dictInsert_self] at h
    simp [CacheManager.get, CacheManager.set, h, hexp]
  · simp [CacheManager.get, CacheManager.set, h, dictGet_dictInsert_self, hexp]

/-- **C6, counterexample.** In a default-configured manager
(`default_ttl = 3600`), `set("k", "v")` with `ttl` absent at time `0`
followed by `get("k")` at time `4000` (no intervening operation) returns
`None`, not `"v"`: an absent `ttl` does *not* mean "never expires" — it
means `default_ttl`. -/
theorem c6_counterexample :
    (CacheManager.get (CacheManager.set (initCache String 3600 100) "k" "v" none 0)
      "k" 4000).1 = none := by
  decide

/-- **C6, amended.** `set(key, value, ttl)` with `ttl = 0` (indeed any
`ttl ≤ 0`) writes a never-expiring entry: an immediate `get(key)` returns
`value` at *every* later time, from any starting state.  `ttl` absent,
however, means `default_ttl`: the written entry carries
`expires_at = now + default_ttl` whenever `default_ttl > 0`, and once
`now + default_ttl < t`, a `get` at time `t` returns `None`. -/
theorem c6_amended {V : Type} :
    (∀ (s : CacheState V) (k : String) (v : V) (ttlv : ℤ) (now t1 : ℚ),
       ttlv ≤ 0 →
       (CacheManager.get (CacheManager.set s k v (some ttlv) now) k t1).1 = some v) ∧
    (∀ (s : CacheState V) (k : String) (v : V) (now : ℚ),
       dictGet (CacheManager.set s k v none now).disk k =
         some ⟨k, v, now,
           if s.default_ttl > 0 then some (now + (s.default_ttl : ℚ)) else none, 0⟩) ∧
    (∀ (s : CacheState V) (k : String) (v : V) (now t1 : ℚ),
       0 < s.default_ttl → now + (s.default_ttl : ℚ) < t1 →
       (CacheManager.get (CacheManager.set s k v none now) k t1).1 = none) := by
  refine ⟨?_, ?_, ?_⟩
  · intro s k v ttlv now t1 h
    apply get_after_set
    have hgt : ¬ ((ttlv : ℤ) > 0) := by omega
    simp [setEntry, CacheEntry.is_expired, hgt]
  · intro s k v now
    simp [CacheManager.set, setEntry, dictGet_dictInsert_self]
  · intro s k v now t1 h1 h2
    apply get_after_set_expired
    simp [setEntry, CacheEntry.is_expired, h1, h2]

/-- Witness for `c6_amended`: ttl `0` survives to time `999999`; ttl absent
with `default_ttl = 3600` expires by time `4000`. -/
theorem c6_amended_witness :
    (CacheManager.get (CacheManager.set (initCache String 3600 100) "k" "v" (some 0) 0)
      "k" 999999).1 = some "v" ∧
    dictGet (CacheManager.set (initCache String 3600 100) "k" "v" none 0).disk "k" =
      some ⟨"k", "v", 0,
        if (initCache String 3600 100).default_ttl > 0 then
          some (0 + (((initCache String 3600 100).default_ttl : ℤ) : ℚ)) else none, 0⟩ ∧
    (CacheManager.get (CacheManager.set (initCache String 3600 100) "k2" "v2" none 0)
      "k2" 4000).1 = none :=
  ⟨(c6_amended (V := String)).1 (initCache String 3600 100) "k" "v" 0 0 999999 (by decide),
   (c6_amended (V := String)).2.1 (initCache String 3600 100) "k" "v" 0,
   (c6_amended (V := String)).2.2 (initCache String 3600 100) "k2" "v2" 0 4000
     (by decide) (by decide)⟩

/-! ### Eviction bound and policy (claim C7) -/

/-- Well-formedness of a Python-dict model: keys are pairwise distinct. -/
def keysNodup {β : Type} (l : List (String × β)) : Prop :=
  (l.map Prod.fst).Nodup

/-- The key list after `dictInsert`: unchanged for an overwrite, extended by
the (fresh) key for an append. -/
lemma map_fst_dictInsert {β : Type} (l : List (String × β)) (k : String) (v : β) :
    (dictInsert l k v).map Prod.fst = l.map Prod.fst ∨
    ((dictInsert l k v).map Prod.fst = l.map Prod.fst ++ [k] ∧
      k ∉ l.map Prod.fst) := by
  induction l with
  | nil => exact Or.inr ⟨rfl, by simp⟩
  | cons kv rest ih =>
    rcases kv with ⟨k', v'⟩
    by_cases hk : k' = k
    · subst hk
      exact Or.inl (by simp [dictInsert])
    · rcases ih with heq | ⟨heq, hnot⟩
      · exact Or.inl (by simp [dictInsert, hk, heq])
      · refine Or.inr ⟨by simp [dictInsert, hk, heq], ?_⟩
        simp only [List.map_cons, List.mem_cons]
        rintro (hcase | hcase)
        · exact hk hcase.symm
        · exact hnot hcase

/-- `dictInsert` preserves key distinctness. -/
lemma keysNodup_dictInsert {β : Type} {l : List (String × β)} (k : String) (v : β)
    (h : keysNodup l) : keysNodup (dictInsert l k v) := by
  unfold keysNodup at h ⊢
  rcases map_fst_dictInsert l k v with heq | ⟨heq, hnot⟩
  · rw [heq]; exact h
  · rw [heq]
    simp [List.nodup_append, h, hnot]

/-- Filtering preserves key distinctness. -/
lemma keysNodup_filter {β : Type} {l : List (String × β)} (p : String × β → Bool)
    (h : keysNodup l) : keysNodup (l.filter p) :=
  List.Nodup.sublist (List.Sublist.map Prod.fst (List.filter_sublist l)) h

/-- Eviction preserves key distinctness of the memory tier. -/
lemma keysNodup_evict {V : Type} (s : CacheState V) (h : keysNodup s.memory) :
    keysNodup (_evict_if_needed s).memory := by
  unfold _evict_if_needed
  split
  · exact h
  · exact keysNodup_filter _ h

/-- With distinct keys, eviction brings the memory tier to at most
`max_memory_items` entries (exactly `max_memory_items` when it fires). -/
lemma evict_length_le {V : Type} (s : CacheState V) (h : keysNodup s.memory) :
    (_evict_if_needed s).memory.length ≤ s.max_memory_items := by
  unfold _evict_if_needed
  split
  · next hle => exact hle
  · next hgt =>
    push_neg at hgt
    simp only
    set L := s.memory with hL
    set srt := L.mergeSort (fun a b => decide (a.2.hit_count ≤ b.2.hit_count)) with hsrt
    set t := L.length - s.max_memory_items with ht
    set ks := (srt.take t).map Prod.fst with hks
    have hperm : srt.Perm L := List.mergeSort_perm L _
    have htle : t ≤ srt.length := by
      have := hperm.length_eq
      omega
    have hndL : (L.map Prod.fst).Nodup := h
    have hndsrt : (srt.map Prod.fst).Nodup :=
      ((hperm.map Prod.fst).nodup_iff).mpr hndL
    have hsrtnd : srt.Nodup := List.Nodup.of_map Prod.fst hndsrt
    -- every element of the taken prefix is marked for removal
    have htake : ∀ a ∈ srt.take t, (ks.contains a.1) = true := by
      intro a ha
      have : a.1 ∈ ks := List.mem_map.mpr ⟨a, ha, rfl⟩
      simpa [List.elem_eq_mem] using this
    -- no element of the remaining suffix is marked for removal
    have hdrop : ∀ a ∈ srt.drop t, ¬ ((ks.contains a.1) = true) := by
      intro a ha hcon
      have hmem : a.1 ∈ ks := by simpa [List.elem_eq_mem] using hcon
      rcases List.mem_map.mp hmem with ⟨u, hu, hfst⟩
      have hu' : u ∈ srt := List.take_subset t srt hu
      have ha' : a ∈ srt := List.drop_subset t srt ha
      have : u = a := List.inj_on_of_nodup_map hndsrt hu' ha' hfst
      subst this
      have hdisj : (srt.take t).Disjoint (srt.drop t) := by
        apply List.disjoint_of_nodup_append
        rw [List.take_append_drop]
        exact hsrtnd
      exact hdisj hu ha
    have hcount : L.countP (fun kv => ks.contains kv.1) = t := by
      have h1 : srt.countP (fun kv => ks.contains kv.1) = t := by
        conv_lhs => rw [← List.take_append_drop t srt]
        rw [List.countP_append]
        have e1 : (srt.take t).countP (fun kv => ks.contains kv.1) = (srt.take t).length :=
          List.countP_eq_length.mpr htake
        have e2 : (srt.drop t).countP (fun kv => ks.contains kv.1) = 0 :=
          List.countP_eq_zero.mpr hdrop
        rw [e1, e2, List.length_take_of_le htle]
        omega
      rw [← h1]
      exact (hperm.countP_eq _).symm
    have hsplit := List.length_eq_length_filter_add
      (l := L) (fun kv => ks.contains kv.1)
    have hflen : (L.filter (fun kv => ks.contains kv.1)).length = t := by
      rw [← List.countP_eq_length_filter]
      exact hcount
    have : (L.filter (fun kv => !(ks.contains kv.1))).length = L.length - t := by
      omega
    rw [this]
    omega

/-- Configuration fields survive a `set`. -/
@[simp] lemma set_max_memory_items {V : Type} (s : CacheState V) (k : String)
    (v : V) (ttl : Option ℤ) (now : ℚ) :
    (CacheManager.set s k v ttl now).max_memory_items = s.max_memory_items := by
  simp [CacheManager.set, (evict_config _).2]

/-- A `set` preserves key distinctness of the memory tier. -/
lemma keysNodup_set {V : Type} (s : CacheState V) (k : String) (v : V)
    (ttl : Option ℤ) (now : ℚ) (h : keysNodup s.memory) :
    keysNodup (CacheManager.set s k v ttl now).memory := by
  simp only [CacheManager.set]
  exact keysNodup_evict _ (keysNodup_dictInsert _ _ h)

/-- With distinct keys, the memory tier holds at most `max_memory_items`
entries after any `set`. -/
lemma set_length_le {V : Type} (s : CacheState V) (k : String) (v : V)
    (ttl : Option ℤ) (now : ℚ) (h : keysNodup s.memory) :
    (CacheManager.set s k v ttl now).memory.length ≤ s.max_memory_items := by
  simp only [CacheManager.set]
  have := evict_length_le
    { s with memory := dictInsert s.memory k (setEntry s k v ttl now) }
    (keysNodup_dictInsert _ _ h)
  simpa using this

/-- Key distinctness is decidable, so witnesses can be checked by `decide`. -/
instance {β : Type} (l : List (String × β)) : Decidable (keysNodup l) := by
  unfold keysNodup
  infer_instance

/-- One `set` call of an operation sequence, `op = (key, value, ttl, now)`. -/
def setStep {V : Type} (s : CacheState V) (op : String × V × Option ℤ × ℚ) :
    CacheState V :=
  CacheManager.set s op.1 op.2.1 op.2.2.1 op.2.2.2

/-- **C7.** (i) Starting from a fresh cache, after every completed `set` of
any sequence of `set` calls the memory tier holds at most
`max_memory_items` entries.  (ii) When eviction fires, only lowest-hit-count
entries are removed: an entry removed by eviction has a hit count at most
that of every surviving entry. -/
theorem c7_eviction_bound {V : Type} :
    (∀ (d : ℤ) (mx : Nat) (ops : List (String × V × Option ℤ × ℚ)),
       (ops.foldl setStep (initCache V d mx)).memory.length ≤ mx) ∧
    (∀ (s : CacheState V), keysNodup s.memory →
       ∀ kv, kv ∈ s.memory → kv ∉ (_evict_if_needed s).memory →
       ∀ kv', kv' ∈ (_evict_if_needed s).memory →
         kv.2.hit_count ≤ kv'.2.hit_count) := by
  constructor
  · intro d mx ops
    suffices hgen : ∀ (ops : List (String × V × Option ℤ × ℚ)) (s : CacheState V),
        keysNodup s.memory → s.max_memory_items = mx → s.memory.length ≤ mx →
        keysNodup (List.foldl setStep s ops).memory ∧
        (List.foldl setStep s ops).max_memory_items = mx ∧
        (List.foldl setStep s ops).memory.length ≤ mx by
      exact (hgen ops (initCache V d mx) (by simp [initCache, keysNodup])
        rfl (by simp [initCache])).2.2
    intro ops
    induction ops with
    | nil => intro s h1 h2 h3; exact ⟨h1, h2, h3⟩
    | cons op ops ih =>
      intro s h1 h2 h3
      apply ih
      · exact keysNodup_set _ _ _ _ _ h1
      · show (setStep s op).max_memory_items = mx
        rw [setStep, set_max_memory_items]
        exact h2
      · show (setStep s op).memory.length ≤ mx
        rw [setStep]
        calc (CacheManager.set s op.1 op.2.1 op.2.2.1 op.2.2.2).memory.length
            ≤ s.max_memory_items := set_length_le _ _ _ _ _ h1
          _ = mx := h2
  · intro s hnd kv hmem hout kv' hmem'
    by_cases hle : s.memory.length ≤ s.max_memory_items
    · unfold _evict_if_needed at hout
      rw [if_pos hle] at hout
      exact absurd hmem hout
    · unfold _evict_if_needed at hout hmem'
      rw [if_neg hle] at hout hmem'
      simp only at hout hmem'
      set L := s.memory with hL
      set srt := L.mergeSort (fun a b => decide (a.2.hit_count ≤ b.2.hit_count)) with hsrt
      set t := L.length - s.max_memory_items with ht
      set ks := (srt.take t).map Prod.fst with hks
      have hperm : srt.Perm L := List.mergeSort_perm L _
      have hndsrt : (srt.map Prod.fst).Nodup :=
        ((hperm.map Prod.fst).nodup_iff).mpr hnd
      have hkvsrt : kv ∈ srt := hperm.mem_iff.mpr hmem
      -- kv was marked for removal
      have hc : ks.contains kv.1 = true := by
        by_contra hcon
        apply hout
        apply List.mem_filter.mpr
        refine ⟨hmem, ?_⟩
        simpa [List.elem_eq_mem] using hcon
      have hkv_take : kv ∈ srt.take t := by
        have hmemks : kv.1 ∈ ks := by simpa [List.elem_eq_mem] using hc
        rcases List.mem_map.mp hmemks with ⟨u, hu, hfst⟩
        have hu' : u ∈ srt := List.take_subset t srt hu
        have : u = kv := List.inj_on_of_nodup_map hndsrt hu' hkvsrt hfst
        rw [← this]
        exact hu
      -- kv' survived, so it sits in the suffix
      have hkv'L : kv' ∈ L := (List.mem_filter.mp hmem').1
      have hkv'pred : ks.contains kv'.1 = false := by
        have := (List.mem_filter.mp hmem').2
        simpa using this
      have hkv'srt : kv' ∈ srt := hperm.mem_iff.mpr hkv'L
      have hkv'_drop : kv' ∈ srt.drop t := by
        have : kv' ∈ srt.take t ++ srt.drop t := by
          rw [List.take_append_drop]
          exact hkv'srt
        rcases List.mem_append.mp this with hcase | hcase
        · exfalso
          have : kv'.1 ∈ ks := List.mem_map.mpr ⟨kv', hcase, rfl⟩
          have : ks.contains kv'.1 = true := by simpa [List.elem_eq_mem] using this
          rw [this] at hkv'pred
          simp at hkv'pred
        · exact hcase
      -- sortedness gives the hit-count comparison
      have hsorted : List.Pairwise
          (fun a b : String × CacheEntry V =>
            decide (a.2.hit_count ≤ b.2.hit_count) = true) srt := by
        apply List.sorted_mergeSort
        · intro a b c hab hbc
          simp only [decide_eq_true_eq] at hab hbc ⊢
          omega
        · intro a b
          simpa using Nat.le_total a.2.hit_count b.2.hit_count
      have hpair : ∀ a ∈ srt.take t, ∀ b ∈ srt.drop t,
          decide (a.2.hit_count ≤ b.2.hit_count) = true := by
        have := hsorted
        rw [← List.take_append_drop t srt] at this
        exact (List.pairwise_append.mp this).2.2
      have := hpair kv hkv_take kv' hkv'_drop
      simpa using this

/-- Witness for `c7_eviction_bound`: three inserts into a 2-slot cache stay
within bound; in a concrete over-full state, the evicted entry (hit count 1)
has a hit count at most that of a survivor (hit count 5). -/
theorem c7_eviction_bound_witness :
    ((([("a", "1", some 0, (0 : ℚ)), ("b", "2", some 0, 1), ("c", "3", some 0, 2)] :
        List (String × String × Option ℤ × ℚ)).foldl setStep
          (initCache String 3600 2)).memory.length ≤ 2) ∧
    (("b", (⟨"b", "vb", 0, none, 1⟩ : CacheEntry String)).2.hit_count ≤
      ("a", (⟨"a", "va", 0, none, 5⟩ : CacheEntry String)).2.hit_count) :=
  ⟨(c7_eviction_bound (V := String)).1 3600 2 _,
   (c7_eviction_bound (V := String)).2
     ⟨[("a", ⟨"a", "va", 0, none, 5⟩), ("b", ⟨"b", "vb", 0, none, 1⟩),
       ("c", ⟨"c", "vc", 0, none, 3⟩)], [], 3600, 2, 0, 0, 0⟩
     (by decide)
     ("b", ⟨"b", "vb", 0, none, 1⟩) (by decide)
     (by simp [_evict_if_needed, List.mergeSort])
     ("a", ⟨"a", "va", 0, none, 5⟩)
     (by simp [_evict_if_needed, List.mergeSort])⟩

/-! ## `cache_key` (`src/utils/cache_manager.py`, module level) -/

/-- Python tuple comparison on `(key, value)` string pairs, as used by
`sorted(kwargs.items())`: lexicographic. -/
def kwLe (a b : String × String) : Bool :=
  decide (a.1 < b.1 ∨ (a.1 = b.1 ∧ a.2 ≤ b.2))

/-- Embedding of `cache_key(*args, **kwargs)`: positional arguments (already
rendered by `str`) become parts; keyword arguments, when present, are sorted,
rendered `"k=v"`, joined with `":"` and appended as one more part; the parts
are joined with `":"`. -/
def cache_key (args : List String) (kwargs : List (String × String)) : String :=
  let parts := args
  let parts :=
    if kwargs.isEmpty then parts
    else
      let sorted_kwargs := kwargs.mergeSort kwLe
      let kwargs_str :=
        String.intercalate ":" (sorted_kwargs.map (fun kv => kv.1 ++ "=" ++ kv.2))
      parts ++ [kwargs_str]
  String.intercalate ":" parts

/-- **C8, counterexample.** `cache_key` is not injective: the single argument
`"a:b"` and the two arguments `"a", "b"` produce the identical key `"a:b"`,
and the positional argument `"k=v"` collides with the keyword argument
`k="v"`. -/
theorem c8_counterexample :
    cache_key ["a:b"] [] = cache_key ["a", "b"] [] ∧
    (["a:b"] : List String) ≠ ["a", "b"] ∧
    cache_key ["k=v"] [] = cache_key [] [("k", "v")] ∧
    ¬ (["k=v"] = ([] : List String) ∧ ([] : List (String × String)) = [("k", "v")]) := by
  refine ⟨by decide, by decide, ?_, by decide⟩
  simp [cache_key, List.mergeSort]
  decide

/-- **C8, amended.** `cache_key` is pure and keyword-order-insensitive:
permuting the keyword arguments yields the identical key string.  It is not
injective (see the counterexample): distinct argument lists can collide when
argument strings contain the separator. -/
theorem c8_amended (args : List String) (kw1 kw2 : List (String × String))
    (hperm : kw1.Perm kw2) :
    cache_key args kw1 = cache_key args kw2 := by
  unfold cache_key
  have hemp : kw1.isEmpty = kw2.isEmpty := by
    have hlen := hperm.length_eq
    cases kw1 <;> cases kw2 <;> simp_all
  have htrans : ∀ a b c : String × String,
      kwLe a b = true → kwLe b c = true → kwLe a c = true := by
    intro a b c hab hbc
    simp only [kwLe, decide_eq_true_eq] at hab hbc ⊢
    rcases hab with h1 | ⟨h1, h2⟩
    · rcases hbc with h3 | ⟨h3, h4⟩
      · exact Or.inl (lt_trans h1 h3)
      · exact Or.inl (h3 ▸ h1)
    · rcases hbc with h3 | ⟨h3, h4⟩
      · exact Or.inl (h1 ▸ h3)
      · exact Or.inr ⟨h1.trans h3, le_trans h2 h4⟩
  have htotal : ∀ a b : String × String, (kwLe a b || kwLe b a) = true := by
    intro a b
    simp only [kwLe, Bool.or_eq_true, decide_eq_true_eq]
    rcases lt_trichotomy a.1 b.1 with h | h | h
    · exact Or.inl (Or.inl h)
    · rcases le_total a.2 b.2 with h2 | h2
      · exact Or.inl (Or.inr ⟨h, h2⟩)
      · exact Or.inr (Or.inr ⟨h.symm, h2⟩)
    · exact Or.inr (Or.inl h)
  have hsort : kw1.mergeSort kwLe = kw2.mergeSort kwLe := by
    refine @List.Perm.eq_of_sorted _ (fun a b => kwLe a b = true) _ _ ?_ ?_ ?_ ?_
    · intro a b _ _ hab hba
      simp only [kwLe, decide_eq_true_eq] at hab hba
      rcases hab with h1 | ⟨h1, h2⟩
      · rcases hba with h3 | ⟨h3, h4⟩
        · exact absurd h3 (lt_asymm h1)
        · exact absurd h3 (ne_of_lt h1).symm
      · rcases hba with h3 | ⟨h3, h4⟩
        · exact absurd h1 (ne_of_lt h3).symm
        · exact Prod.ext h1 (le_antisymm h2 h4)
    · exact List.sorted_mergeSort htrans htotal kw1
    · exact List.sorted_mergeSort htrans htotal kw2
    · exact (List.mergeSort_perm kw1 kwLe).trans
        (hperm.trans (List.mergeSort_perm kw2 kwLe).symm)
  rw [hemp, hsort]

/-- Witness for `c8_amended`: the two keyword orders of
`cache_key("search", "悉尼旅游", limit=5, page=2)` give the same key. -/
theorem c8_amended_witness :
    cache_key ["search", "悉尼旅游"] [("limit", "5"), ("page", "2")] =
      cache_key ["search", "悉尼旅游"] [("page", "2"), ("limit", "5")] :=
  c8_amended ["search", "悉尼旅游"] [("limit", "5"), ("page", "2")]
    [("page", "2"), ("limit", "5")] (List.Perm.swap ("page", "2") ("limit", "5") [])

/-! ## Parallel task executor (`src/utils/parallel_executor.py`)

`execute_tasks` submits every task to a worker pool and collects results into
a dict keyed by task name as futures complete; each task body runs inside
`_execute_single_task`.  With distinct task names the name-keyed mapping does
not depend on completion order, so the executor is modelled by mapping
`_execute_single_task` over the batch.  Wall-clock `elapsed_time` is not
modelled. -/

/-- `Task` dataclass: a named thunk (`func(*args, **kwargs)` packaged up). -/
structure Task (ε α : Type) where
  name : String
  func : Unit → Except ε α

/-- `TaskResult` dataclass (minus `elapsed_time`). -/
structure TaskResult (ε α : Type) where
  name : String
  success : Bool
  result : Option α
  error : Option ε
deriving Repr, DecidableEq

/-- `ParallelExecutor._execute_single_task`: the isolating boundary — a
normal return becomes `success=True` with the value, an exception becomes
`success=False` with the exception in `error`. -/
def _execute_single_task {ε α : Type} (t : Task ε α) : TaskResult ε α :=
  match t.func () with
  | .ok v => ⟨t.name, true, some v, none⟩
  | .error e => ⟨t.name, false, none, some e⟩

/-- `ParallelExecutor.execute_tasks`: the name-keyed result mapping. -/
def execute_tasks {ε α : Type} (tasks : List (Task ε α)) :
    List (String × TaskResult ε α) :=
  tasks.map (fun t => (t.name, _execute_single_task t))

/-- With distinct names, the result mapping sends each task's name to that
task's own isolated result. -/
lemma dictGet_execute_tasks {ε α : Type} (l : List (Task ε α)) (u : Task ε α)
    (hu : u ∈ l) (hnd : (l.map Task.name).Nodup) :
    dictGet (execute_tasks l) u.name = some (_execute_single_task u) := by
  induction l with
  | nil => cases hu
  | cons w rest ih =>
    simp only [List.map_cons, List.nodup_cons] at hnd
    rcases List.mem_cons.mp hu with heq | hmem
    · subst heq
      simp [execute_tasks, dictGet]
    · have hne : w.name ≠ u.name := by
        intro hcon
        exact hnd.1 (hcon ▸ List.mem_map.mpr ⟨u, hmem, rfl⟩)
      simpa [execute_tasks, dictGet, hne] using ih hmem hnd.2

/-- **C9.** For a batch in which exactly one task raises and every other
task returns normally (distinct names), `execute_tasks` maps the raiser's
name to a `success=False` result carrying the raised exception, maps every
other task's name to a `success=True` result carrying its returned value,
and produces exactly one `success=False` result in the whole mapping. -/
theorem c9_isolation {ε α : Type} (pre post : List (Task ε α)) (t : Task ε α)
    (e : ε)
    (hnd : ((pre ++ t :: post).map Task.name).Nodup)
    (hraise : t.func () = .error e)
    (hok : ∀ u ∈ pre ++ post, ∃ v, u.func () = .ok v) :
    dictGet (execute_tasks (pre ++ t :: post)) t.name =
      some ⟨t.name, false, none, some e⟩ ∧
    (∀ u ∈ pre ++ post, ∀ v, u.func () = .ok v →
       dictGet (execute_tasks (pre ++ t :: post)) u.name =
         some ⟨u.name, true, some v, none⟩) ∧
    ((execute_tasks (pre ++ t :: post)).filter
      (fun r => !r.2.success)).length = 1 := by
  refine ⟨?_, ?_, ?_⟩
  · have := dictGet_execute_tasks (pre ++ t :: post) t
      (List.mem_append.mpr (Or.inr (List.mem_cons_self t post))) hnd
    rw [this, _execute_single_task, hraise]
  · intro u hu v hv
    have humem : u ∈ pre ++ t :: post := by
      rcases List.mem_append.mp hu with h | h
      · exact List.mem_append.mpr (Or.inl h)
      · exact List.mem_append.mpr (Or.inr (List.mem_cons_of_mem t h))
    have := dictGet_execute_tasks (pre ++ t :: post) u humem hnd
    rw [this, _execute_single_task, hv]
  · have hsucc : ∀ u ∈ pre ++ post, (_execute_single_task u).success = true := by
      intro u hu
      rcases hok u hu with ⟨v, hv⟩
      rw [_execute_single_task, hv]
    have hpre : ∀ u ∈ pre, (_execute_single_task u).success = true :=
      fun u hu => hsucc u (List.mem_append.mpr (Or.inl hu))
    have hpost : ∀ u ∈ post, (_execute_single_task u).success = true :=
      fun u hu => hsucc u (List.mem_append.mpr (Or.inr hu))
    have hfail : (_execute_single_task t).success = false := by
      rw [_execute_single_task, hraise]
    simp only [execute_tasks, List.map_append, List.map_cons,
      List.filter_append, List.filter_cons, List.length_append]
    have e1 : (pre.map (fun u => (u.name, _execute_single_task u))).filter
        (fun r => !r.2.success) = [] := by
      apply List.filter_eq_nil_iff.mpr
      intro a ha
      rcases List.mem_map.mp ha with ⟨u, hu, hux⟩
      simp [← hux, hpre u hu]
    have e2 : (post.map (fun u => (u.name, _execute_single_task u))).filter
        (fun r => !r.2.success) = [] := by
      apply List.filter_eq_nil_iff.mpr
      intro a ha
      rcases List.mem_map.mp ha with ⟨u, hu, hux⟩
      simp [← hux, hpost u hu]
    rw [e1, e2]
    simp [hfail]

/-- Witness for `c9_isolation`: quality succeeds with `7`, compliance raises
`"LLM timeout"`, engagement succeeds with `8`. -/
theorem c9_isolation_witness :
    dictGet (execute_tasks
        [⟨"quality", fun _ => (.ok 7 : Except String Nat)⟩,
         ⟨"compliance", fun _ => .error "LLM timeout"⟩,
         ⟨"engagement", fun _ => .ok 8⟩])
      "compliance" = some ⟨"compliance", false, none, some "LLM timeout"⟩ ∧
    ((execute_tasks
        [⟨"quality", fun _ => (.ok 7 : Except String Nat)⟩,
         ⟨"compliance", fun _ => .error "LLM timeout"⟩,
         ⟨"engagement", fun _ => .ok 8⟩]).filter
      (fun r => !r.2.success)).length = 1 := by
  have h := c9_isolation
    [⟨"quality", fun _ => (.ok 7 : Except String Nat)⟩]
    [⟨"engagement", fun _ => .ok 8⟩]
    ⟨"compliance", fun _ => .error "LLM timeout"⟩
    "LLM timeout"
    (by decide)
    rfl
    (by
      intro u hu
      rcases List.mem_append.mp hu with hcase | hcase
      · rcases List.mem_singleton.mp hcase with rfl
        exact ⟨7, rfl⟩
      · rcases List.mem_singleton.mp hcase with rfl
        exact ⟨8, rfl⟩)
  exact ⟨h.1, h.2.2⟩

/-! ## Stored-falsy conflation (claim C10):
`CacheManager.get` + `review_content_optimized` (`src/tools/review_optimized.py`) -/

/-- A dynamically typed Python value, as stored in the cache. -/
inductive PyVal where
  | none
  | bool (b : Bool)
  | int (n : ℤ)
  | str (s : String)
  | dict (entries : List (String × PyVal))

/-- Python truthiness of a value (`if cached_result:`). -/
def pyTruthy : PyVal → Bool
  | .none => false
  | .bool b => b
  | .int n => decide (n ≠ 0)
  | .str s => decide (s ≠ "")
  | .dict l => !l.isEmpty

/-- The value channel of the Python `CacheManager.get`: the stored value on a
hit and the Python `None` on a miss travel on one and the same channel. -/
def CacheManager.get_py (s : CacheState PyVal) (key : String) (now : ℚ) :
    PyVal × CacheState PyVal :=
  match CacheManager.get s key now with
  | (some v, s') => (v, s')
  | (none, s') => (PyVal.none, s')

/-- The caching skeleton of `review_content_optimized` (the `use_cache`
lookup with the `if cached_result:` test, and the final `set`); `fresh`
stands for the freshly computed pipeline result.  Returns
`(result, from_cache, cache state)`. -/
def review_content_optimized_cache (use_cache : Bool) (s : CacheState PyVal)
    (key : String) (fresh : PyVal) (cache_ttl : ℤ) (now : ℚ) :
    PyVal × Bool × CacheState PyVal :=
  if use_cache then
    let r := CacheManager.get_py s key now
    if pyTruthy r.1 then (r.1, true, r.2)
    else (fresh, false, CacheManager.set r.2 key fresh (some cache_ttl) now)
  else (fresh, false, s)

/-- The value channel of `get_py` is `get`'s value, with misses mapped to
Python `None`. -/
lemma get_py_fst (s : CacheState PyVal) (key : String) (now : ℚ) :
    (CacheManager.get_py s key now).1 =
      (CacheManager.get s key now).1.getD PyVal.none := by
  unfold CacheManager.get_py
  rcases hg : CacheManager.get s key now with ⟨o, s'⟩
  cases o <;> simp

/-- **C10.** The cache interface conflates a stored falsy value with absence:
(i) after storing the value `None` (never-expiring), `get` returns `None`,
exactly as it does (ii) on a key that was never stored; and (iii) for every
falsy stored value, `review_content_optimized` with `use_cache=True` treats
the hit as a miss — it returns the freshly computed result with
`from_cache=False`, re-running the expensive pipeline. -/
theorem c10_falsy_conflation :
    (∀ (s : CacheState PyVal) (k : String) (now t1 : ℚ),
       (CacheManager.get_py (CacheManager.set s k PyVal.none (some 0) now) k t1).1 =
         PyVal.none) ∧
    (∀ (k : String) (d : ℤ) (mx : Nat) (t1 : ℚ),
       (CacheManager.get_py (initCache PyVal d mx) k t1).1 = PyVal.none) ∧
    (∀ (v : PyVal), pyTruthy v = false →
       ∀ (s : CacheState PyVal) (k : String) (fresh : PyVal) (ttl : ℤ) (now t1 : ℚ),
       (review_content_optimized_cache true (CacheManager.set s k v (some 0) now)
          k fresh ttl t1).2.1 = false ∧
       (review_content_optimized_cache true (CacheManager.set s k v (some 0) now)
          k fresh ttl t1).1 = fresh) := by
  have hget : ∀ (s : CacheState PyVal) (k : String) (v : PyVal) (now t1 : ℚ),
      (CacheManager.get (CacheManager.set s k v (some 0) now) k t1).1 = some v := by
    intro s k v now t1
    apply get_after_set
    simp [setEntry, CacheEntry.is_expired]
  refine ⟨?_, ?_, ?_⟩
  · intro s k now t1
    rw [get_py_fst, hget]
    rfl
  · intro k d mx t1
    rfl
  · intro v hv s k fresh ttl now t1
    constructor <;>
      simp [review_content_optimized_cache, get_py_fst, hget, hv]

/-- Witness for `c10_falsy_conflation`: with the falsy cached value `{}` (an
empty decision dict), the pipeline re-runs and `from_cache` is `False`. -/
theorem c10_falsy_conflation_witness :
    (review_content_optimized_cache true
        (CacheManager.set (initCache PyVal 3600 100) "review:abc" (PyVal.dict [])
          (some 0) 0)
        "review:abc" (PyVal.str "fresh-result") 3600 1).2.1 = false ∧
    (review_content_optimized_cache true
        (CacheManager.set (initCache PyVal 3600 100) "review:abc" (PyVal.dict [])
          (some 0) 0)
        "review:abc" (PyVal.str "fresh-result") 3600 1).1 =
      PyVal.str "fresh-result" :=
  (c10_falsy_conflation.2.2 (PyVal.dict []) (by decide)
    (initCache PyVal 3600 100) "review:abc" (PyVal.str "fresh-result") 3600 0 1)

end SMAgent
